import Mathlib

set_option linter.unusedVariables false

/-
Shallow embedding of the task-combinator engine in `src/hypara.hpp`.

Modelling conventions:
- A C++ exception is modelled as a `String` message (`Err`).  A callable that
  may throw is a function into `Except Err ρ`.
- `hyp::Task<Ret(Args...)>` wraps one stateless callable; every invocation of
  the same task with the same argument tuple settles with the same outcome, so
  the eventual outcome of the `std::shared_future` produced by `run` is the
  value of the wrapped function (`Except Err ρ`).
- Blocking waits (`fut.get()`, `fut.wait()`) observe the eventual outcome.
  Non-blocking or bounded waits (`wait_for(0)`, `wait_for(1ms)`) depend on
  whether the future has settled at the moment of the check; this is modelled
  by a `Poll` state (`pending`, or `settled` with the eventual outcome) chosen
  by an external schedule, or by a `sched : Nat → Bool` flag per index.
- The registry (`TaskGroup`) methods are translated in state-passing style:
  each `execute_*` returns the (unchanged, as the bodies never write `tasks_`)
  registry together with its result.
-/

namespace Hypara

/-- Exceptions are modelled by their message. -/
abbrev Err := String

/-- `hyp::Task<Ret(Args...)>`: an immutable wrapped callable from the argument
tuple type `α` to `ρ`, which may fail (throw). -/
structure Task (α ρ : Type) where
  fn : α → Except Err ρ

namespace Task

/-- `Task::run(args)`: starts the callable; the returned shared future
eventually settles with the callable's outcome.  The model identifies the
handle with its eventual outcome (blocking reads observe exactly this). -/
def run {α ρ : Type} (t : Task α ρ) (a : α) : Except Err ρ :=
  t.fn a

/-- `Task::get(args)`: `run` followed by a blocking `.get()`, returning the
value or propagating the callable's failure to the caller. -/
def get {α ρ : Type} (t : Task α ρ) (a : α) : Except Err ρ :=
  t.run a

/-- `Task::then(fn)` (named `andThen` since `then` is reserved in Lean): a new
task whose invocation runs the original, blocks for its result (rethrowing an
inner failure), and applies the continuation `f` (itself possibly throwing). -/
def andThen {α ρ σ : Type} (t : Task α ρ) (f : ρ → Except Err σ) : Task α σ :=
  ⟨fun a =>
    match t.fn a with
    | .error e => .error e
    | .ok r => f r⟩

end Task

namespace aux

/-- State of a future at the moment of a non-blocking (`wait_for(0)`) or
bounded (`wait_for(1ms)`) check: still pending, or settled with its eventual
outcome. -/
inductive Poll (ρ : Type) where
  | pending : Poll ρ
  | settled (out : Except Err ρ) : Poll ρ

/-- Relates a future's eventual outcome to a feasible poll observation: a
bounded wait either times out (`pending`) or observes the settled outcome. -/
inductive PollOf {ρ : Type} : Except Err ρ → Poll ρ → Prop
  | pending (o : Except Err ρ) : PollOf o Poll.pending
  | settled (o : Except Err ρ) : PollOf o (Poll.settled o)

/-- Index-wise feasibility of a whole poll schedule for the futures produced by
the launcher. -/
def PollsFor {ρ : Type} (outs : List (Except Err ρ)) (polls : List (Poll ρ)) : Prop :=
  List.Forall₂ PollOf outs polls

/-- `aux::transform`: start every task in the range against the one shared
argument tuple and return the handles in the original order. -/
def transform {α ρ : Type} (tasks : List (Task α ρ)) (a : α) : List (Except Err ρ) :=
  tasks.map (fun t => t.run a)

/-- Message of the exception `aux::getAnyResultPair` stores when no task won. -/
def allFailedMsg : Err := "All tasks failed or no task returned a valid result"

/-- Scan loop of `aux::getAnyResultPair`: one pass over the futures, each
checked with a 1 ms bounded wait; the first future observed settled-successful
wins; a settled-failed future throws inside the loop and is caught; a pending
future is skipped.  If the pass finds no winner, the promise is fulfilled with
an exception, which the caller's blocking `resfut.get()` rethrows. -/
def anyScan {ρ : Type} : Nat → List (Poll ρ) → Except Err (Nat × ρ)
  | _, [] => .error allFailedMsg
  | i, Poll.settled (.ok v) :: _ => .ok (i, v)
  | i, _ :: qs => anyScan (i + 1) qs

/-- `aux::getAnyResultPair` as observed by its caller: the value of
`resfut.get()` (a raised exception is an `Except.error`). -/
def getAnyResultPair {ρ : Type} (polls : List (Poll ρ)) : Except Err (Nat × ρ) :=
  anyScan 0 polls

/-- Scan loop of `aux::getAnyWithResultPair`: one pass, 1 ms bounded wait per
future; a settled-successful value must additionally satisfy the predicate to
win; failures are caught and skipped; exhaustion yields `(-1, nullopt)` via
`set_value` (never an exception). -/
def anyWithScan {ρ : Type} (p : ρ → Bool) : Nat → List (Poll ρ) → Int × Option ρ
  | _, [] => (-1, none)
  | i, Poll.settled (.ok v) :: qs =>
      if p v then ((i : Int), some v) else anyWithScan p (i + 1) qs
  | i, _ :: qs => anyWithScan p (i + 1) qs

/-- `aux::getAnyWithResultPair` as observed by its caller. -/
def getAnyWithResultPair {ρ : Type} (p : ρ → Bool) (polls : List (Poll ρ)) :
    Int × Option ρ :=
  anyWithScan p 0 polls

/-- Scan loop of `aux::getOrderWithResultPair`: for index 0,1,2,… the thread
performs a blocking `funcs[i].get()` (so the eventual outcome is observed,
regardless of wall-clock settlement order); a failure is caught and the index
skipped; the first successful value satisfying the predicate wins; exhaustion
yields `(count, nullopt)`. -/
def orderScan {ρ : Type} (p : ρ → Bool) : Nat → List (Except Err ρ) → Nat × Option ρ
  | i, [] => (i, none)
  | i, .ok v :: os => if p v then (i, some v) else orderScan p (i + 1) os
  | i, .error _ :: os => orderScan p (i + 1) os

/-- `aux::getOrderWithResultPair` as observed by its caller. -/
def getOrderWithResultPair {ρ : Type} (p : ρ → Bool) (outs : List (Except Err ρ)) :
    Nat × Option ρ :=
  orderScan p 0 outs

end aux

/-- Body of the task built by the free `hyp::All`: the futures are collected
with blocking `fut.get()` in launch order, with no try/catch, so the first
failed future's exception propagates out of the evaluation. -/
def collectAll {ρ : Type} : List (Except Err ρ) → Except Err (List ρ)
  | [] => .ok []
  | .error e :: _ => .error e
  | .ok v :: os =>
      match collectAll os with
      | .error e => .error e
      | .ok vs => .ok (v :: vs)

/-- Free `hyp::All`: a task that launches every task of the range against the
shared argument tuple and collects all results in launch order.  It has no
deadline parameter in this version of the header. -/
def All {α ρ : Type} (tasks : List (Task α ρ)) (a : α) : Task Unit (List ρ) :=
  ⟨fun _ => collectAll (aux.transform tasks a)⟩

/-- Message of the exception the free `hyp::Best` throws on an empty list. -/
def noResultsMsg : Err := "No results to compare"

/-- One step of the linear minimum pass: keep the incumbent `b` unless the new
element `v` is strictly better. -/
def minStep {β : Type} (better : β → β → Bool) (b v : β) : β :=
  if better v b then v else b

/-- `std::min_element(tmpRes.begin(), tmpRes.end(), better)` on the nonempty
list `x :: xs`: a single left-to-right fold keeping the first element on ties. -/
def minElement {β : Type} (better : β → β → Bool) (x : β) (xs : List β) : β :=
  xs.foldl (minStep better) x

/-- Free `hyp::Best`: `All` followed by a `then` continuation that throws on an
empty collected list and otherwise returns the minimum element under the
comparator. -/
def Best {α ρ : Type} (better : ρ → ρ → Bool) (tasks : List (Task α ρ)) (a : α) :
    Task Unit ρ :=
  (All tasks a).andThen (fun vs =>
    match vs with
    | [] => .error noResultsMsg
    | v :: rest => .ok (minElement better v rest))

/-- Free `hyp::Any`: launch all tasks, then race them with
`aux::getAnyResultPair`; the bounded-wait observations of that single pass are
the poll schedule `polls`. -/
def Any {α ρ : Type} (tasks : List (Task α ρ)) (a : α) (polls : List (aux.Poll ρ)) :
    Task Unit (Nat × ρ) :=
  ⟨fun _ => aux.getAnyResultPair polls⟩

/-- Free `hyp::AnyWith`: launch all tasks, then race them with
`aux::getAnyWithResultPair` under the given poll schedule. -/
def AnyWith {α ρ : Type} (p : ρ → Bool) (tasks : List (Task α ρ)) (a : α)
    (polls : List (aux.Poll ρ)) : Task Unit (Int × Option ρ) :=
  ⟨fun _ => .ok (aux.getAnyWithResultPair p polls)⟩

/-- Free `hyp::OrderWith`: launch all tasks, then scan them in launch order
with `aux::getOrderWithResultPair` (blocking per index, so deterministic). -/
def OrderWith {α ρ : Type} (p : ρ → Bool) (tasks : List (Task α ρ)) (a : α) :
    Task Unit (Nat × Option ρ) :=
  ⟨fun _ => .ok (aux.getOrderWithResultPair p (aux.transform tasks a))⟩

/-- `hyp::TaskGroup<Ret, Args...>`: an ordered list of (name, task) entries. -/
structure TaskGroup (α ρ : Type) where
  tasks_ : List (String × Task α ρ)

namespace TaskGroup

/-- `TaskGroup::add_function(name, fn)`: appends one entry at the end. -/
def add_function {α ρ : Type} (g : TaskGroup α ρ) (name : String)
    (f : α → Except Err ρ) : TaskGroup α ρ :=
  ⟨g.tasks_ ++ [(name, ⟨f⟩)]⟩

/-- The futures vector every prelaunching `execute_*` builds: one
`task.run(args...)` per registry entry, in registry order. -/
def futuresOf {α ρ : Type} (g : TaskGroup α ρ) (a : α) : List (Except Err ρ) :=
  g.tasks_.map (fun nt => nt.2.run a)

/-- Result of `TaskGroup::execute_any` on the no-deadline path.  `w` is the
index the readiness race reports: the monitor thread polls all futures with
`wait_for(0)` until one is ready; a settled-failed future is also ready, so any
index whose future has settled can be reported, depending on scheduling.  The
main thread then calls `futures[w].get()` with no try/catch, so a failed
winner's exception propagates to the caller. -/
def execute_any_result {α ρ : Type} (g : TaskGroup α ρ) (a : α) (w : Nat) :
    Except Err (Option (String × ρ)) :=
  if g.tasks_.isEmpty then .ok none
  else
    match g.tasks_.get? w, (futuresOf g a).get? w with
    | some (name, _), some (.ok v) => .ok (some (name, v))
    | some _, some (.error e) => .error e
    | _, _ => .ok none

/-- `TaskGroup::execute_any` in state-passing style (the body never writes
`tasks_`). -/
def execute_any {α ρ : Type} (g : TaskGroup α ρ) (a : α) (w : Nat) :
    TaskGroup α ρ × Except Err (Option (String × ρ)) :=
  (g, execute_any_result g a w)

/-- Monitor thread of `TaskGroup::execute_any_with`: visits the futures in
index order with a blocking `futures[i].get()` (failures caught and skipped)
and records the first index whose value satisfies the condition; if the loop
exhausts the futures it returns without setting `completed`. -/
def anyWithMonitor {ρ : Type} (cond : ρ → Bool) : Nat → List (Except Err ρ) → Option Nat
  | _, [] => none
  | i, .ok v :: os => if cond v then some i else anyWithMonitor cond (i + 1) os
  | i, .error _ :: os => anyWithMonitor cond (i + 1) os

/-- Result of `TaskGroup::execute_any_with` on the no-deadline path.  The outer
`Option` records termination: `none` means the call never returns, because the
monitor exited without setting `completed` and the caller's
`cv.wait(lock, [&]{ return completed; })` blocks forever. -/
def execute_any_with_result {α ρ : Type} (g : TaskGroup α ρ) (cond : ρ → Bool)
    (a : α) : Option (Option (String × ρ)) :=
  if g.tasks_.isEmpty then some none
  else
    match anyWithMonitor cond 0 (futuresOf g a) with
    | some i =>
        match g.tasks_.get? i, (futuresOf g a).get? i with
        | some (name, _), some (.ok v) => some (some (name, v))
        | _, _ => some none
    | none => none

/-- `TaskGroup::execute_any_with` in state-passing style. -/
def execute_any_with {α ρ : Type} (g : TaskGroup α ρ) (cond : ρ → Bool) (a : α) :
    TaskGroup α ρ × Option (Option (String × ρ)) :=
  (g, execute_any_with_result g cond a)

/-- Collection loop of `TaskGroup::execute_all` on the no-deadline path: for
each index a single non-blocking `wait_for(0)` check (`sched i` says whether
future `i` had settled when the loop reached it); a settled-successful future
is collected, a settled-failed future throws in `get()` and is caught and
skipped, and a still-pending future is skipped without any wait. -/
def collectReady {α ρ : Type} (a : α) (sched : Nat → Bool) :
    Nat → List (String × Task α ρ) → List (String × ρ)
  | _, [] => []
  | i, (name, t) :: rest =>
      if sched i then
        match t.run a with
        | .ok v => (name, v) :: collectReady a sched (i + 1) rest
        | .error _ => collectReady a sched (i + 1) rest
      else collectReady a sched (i + 1) rest

/-- `TaskGroup::execute_all` in state-passing style (no-deadline path): all
tasks are launched, then the single non-blocking collection pass runs. -/
def execute_all {α ρ : Type} (g : TaskGroup α ρ) (a : α) (sched : Nat → Bool) :
    TaskGroup α ρ × List (String × ρ) :=
  (g, collectReady a sched 0 g.tasks_)

/-- Result of `TaskGroup::execute_best`: `execute_all` followed by the linear
minimum pass (`best = results[0]`, then replace whenever
`comparator(results[i].second, best.second)`); empty collection yields
`nullopt`. -/
def execute_best_result {α ρ : Type} (g : TaskGroup α ρ) (comp : ρ → ρ → Bool)
    (a : α) (sched : Nat → Bool) : Option (String × ρ) :=
  match (execute_all g a sched).2 with
  | [] => none
  | r :: rs => some (minElement (fun x y => comp x.2 y.2) r rs)

/-- `TaskGroup::execute_best` in state-passing style. -/
def execute_best {α ρ : Type} (g : TaskGroup α ρ) (comp : ρ → ρ → Bool) (a : α)
    (sched : Nat → Bool) : TaskGroup α ρ × Option (String × ρ) :=
  (g, execute_best_result g comp a sched)

/-- Scan loop of `TaskGroup::execute_order_with` on the no-deadline path: for
each entry in registry order the task is only now started (`task.run` inside
the loop) and waited on with a blocking `fut.wait()`/`fut.get()`; a failure is
caught and the entry skipped; the first successful value satisfying the
condition is returned with its name; exhaustion yields `nullopt`. -/
def orderWithRun {α ρ : Type} (cond : ρ → Bool) (a : α) :
    List (String × Task α ρ) → Option (String × ρ)
  | [] => none
  | (name, t) :: rest =>
      match t.run a with
      | .ok v => if cond v then some (name, v) else orderWithRun cond a rest
      | .error _ => orderWithRun cond a rest

/-- `TaskGroup::execute_order_with` in state-passing style. -/
def execute_order_with {α ρ : Type} (g : TaskGroup α ρ) (cond : ρ → Bool) (a : α) :
    TaskGroup α ρ × Option (String × ρ) :=
  if g.tasks_.isEmpty then (g, none) else (g, orderWithRun cond a g.tasks_)

/-- Launch trace of `TaskGroup::execute_order_with`: the indices of registry
entries whose `task.run(args...)` is actually invoked during the evaluation
(the method starts entry `i` only when the ordered scan reaches it, and stops
launching after a match). -/
def orderWithRunsFrom {α ρ : Type} (cond : ρ → Bool) (a : α) :
    Nat → List (String × Task α ρ) → List Nat
  | _, [] => []
  | i, (_, t) :: rest =>
      i :: (match t.run a with
        | .ok v => if cond v then [] else orderWithRunsFrom cond a (i + 1) rest
        | .error _ => orderWithRunsFrom cond a (i + 1) rest)

/-- Indices launched by one `execute_order_with` evaluation. -/
def execute_order_with_runs {α ρ : Type} (g : TaskGroup α ρ) (cond : ρ → Bool)
    (a : α) : List Nat :=
  orderWithRunsFrom cond a 0 g.tasks_

end TaskGroup

/-- Success/predicate test used to state OrderWith claims: a settled outcome
counts as a match when it succeeded and its value satisfies the predicate. -/
def isMatch {ρ : Type} (p : ρ → Bool) : Except Err ρ → Bool
  | .ok v => p v
  | .error _ => false

/-- Poll-level success test: only a settled, successful future can win a race. -/
def pollSucceeded {ρ : Type} : aux.Poll ρ → Bool
  | aux.Poll.settled (.ok _) => true
  | _ => false

/-- Fixture: a task that succeeds (with value 42) but only after a delay, so it
is still pending at a non-blocking check (its `sched` flag is `false`). -/
def slowTask : Task Unit Nat := ⟨fun _ => .ok 42⟩

/-- Fixture registry for C1: one registered, never-failing task. -/
def gC1 : TaskGroup Unit Nat := ⟨[("slow", slowTask)]⟩

/-- Fixture: a task that always succeeds with value 1. -/
def okTask1 : Task Unit Nat := ⟨fun _ => .ok 1⟩

/-- Fixture: a task whose callable throws. -/
def badTask : Task Unit Nat := ⟨fun _ => .error "bad task"⟩

/-- Fixture registry for C2: every registered task fails. -/
def gC2 : TaskGroup Unit Nat := ⟨[("bad", badTask)]⟩

/-- Fixture registry for C5: the first entry already satisfies the OrderWith
predicate, so the scan never reaches the second entry. -/
def gC5 : TaskGroup Unit Nat := ⟨[("first", ⟨fun _ => .ok 7⟩), ("second", ⟨fun _ => .ok 8⟩)]⟩

/-- Fixture registry for C8 (the repo's own "AnyWith with no match" test data
at x = 10): values 10 and 20, none of which exceeds 100. -/
def gC8 : TaskGroup Unit Nat := ⟨[("func21", ⟨fun _ => .ok 10⟩), ("func22", ⟨fun _ => .ok 20⟩)]⟩

/-- Fixture: an empty registry. -/
def gEmpty : TaskGroup Unit Nat := ⟨[]⟩

/-- Fixture registry for the C4 witness: the second entry is the lowest-index
match for the predicate "value at least 3". -/
def gC4 : TaskGroup Unit Nat := ⟨[("a", ⟨fun _ => .ok 1⟩), ("b", ⟨fun _ => .ok 3⟩)]⟩

/-- Fixture: a task that always succeeds with value 0. -/
def tv0 : Task Unit Nat := ⟨fun _ => .ok 0⟩

/-- Fixture: a task that always succeeds with value 1. -/
def tv1 : Task Unit Nat := ⟨fun _ => .ok 1⟩

/-- Fixture: a succeeding task for the `then` witness. -/
def tC9 : Task Unit Nat := ⟨fun _ => .ok 5⟩

/-- Fixture: a failing task for the `then` witness. -/
def tC9f : Task Unit Nat := ⟨fun _ => .error "inner"⟩

/- ------------------------------------------------------------------ -/
/- Helper lemmas                                                       -/
/- ------------------------------------------------------------------ -/

/-- A list of outcomes containing a failure makes `collectAll` propagate an
error (the first failed future's `get()` throws out of the loop). -/
theorem collectAll_error_of_mem {ρ : Type} (outs : List (Except Err ρ))
    (h : ∃ o ∈ outs, ∃ e, o = Except.error e) :
    ∃ e, collectAll outs = Except.error e := by
  induction outs with
  | nil => simp at h
  | cons o os ih =>
    match o with
    | .error e => exact ⟨e, rfl⟩
    | .ok v =>
      obtain ⟨o2, hmem, e2, he⟩ := h
      rcases List.mem_cons.mp hmem with h1 | h2
      · rw [he] at h1; cases h1
      · obtain ⟨e, hc⟩ := ih ⟨o2, h2, e2, he⟩
        exact ⟨e, by simp [collectAll, hc]⟩

/-- When every outcome is a success, `collectAll` returns all values in launch
order. -/
theorem collectAll_map_ok {ρ : Type} (vs : List ρ) :
    collectAll (vs.map Except.ok) = Except.ok vs := by
  induction vs with
  | nil => rfl
  | cons v vs ih => simp [collectAll, ih]

/-- Unfolding equation of the OrderWith scan at a successful head. -/
theorem orderScan_cons_ok {ρ : Type} (p : ρ → Bool) (i : Nat) (v : ρ)
    (os : List (Except Err ρ)) :
    aux.orderScan p i (Except.ok v :: os) =
      if p v then (i, some v) else aux.orderScan p (i + 1) os := rfl

/-- Unfolding equation of the OrderWith scan at a failed head. -/
theorem orderScan_cons_error {ρ : Type} (p : ρ → Bool) (i : Nat) (e : Err)
    (os : List (Except Err ρ)) :
    aux.orderScan p i (Except.error e :: os) = aux.orderScan p (i + 1) os := rfl

/-- The OrderWith scan over a list with no matching outcome exhausts the list,
advancing the index once per element, and reports no value. -/
theorem orderScan_no_match {ρ : Type} (p : ρ → Bool) (outs : List (Except Err ρ))
    (h : ∀ o ∈ outs, isMatch p o = false) :
    ∀ i, aux.orderScan p i outs = (i + outs.length, none) := by
  induction outs with
  | nil => intro i; simp [aux.orderScan]
  | cons o os ih =>
    intro i
    have hrec := ih (fun o2 ho => h o2 (List.mem_cons_of_mem _ ho)) (i + 1)
    have harith : i + 1 + os.length = i + (os.length + 1) := by omega
    match o with
    | .ok v =>
      have hv : p v = false := h (.ok v) (List.mem_cons_self _ _)
      rw [orderScan_cons_ok, hv, if_neg Bool.false_ne_true, hrec, List.length_cons, harith]
    | .error e =>
      rw [orderScan_cons_error, hrec, List.length_cons, harith]

/-- The OrderWith scan returns the first successful, matching outcome: if every
outcome before position `l1.length` is a non-match (failed or predicate-false),
the scan stops exactly there, regardless of any later entries. -/
theorem orderScan_first_match {ρ : Type} (p : ρ → Bool) (l2 : List (Except Err ρ))
    (v : ρ) (hv : p v = true) :
    ∀ (l1 : List (Except Err ρ)), (∀ o ∈ l1, isMatch p o = false) →
    ∀ i, aux.orderScan p i (l1 ++ Except.ok v :: l2) = (i + l1.length, some v) := by
  intro l1
  induction l1 with
  | nil =>
    intro _ i
    rw [List.nil_append, orderScan_cons_ok, hv, if_pos rfl]
    simp
  | cons o os ih =>
    intro h i
    have hrec := ih (fun o2 ho => h o2 (List.mem_cons_of_mem _ ho)) (i + 1)
    have harith : i + 1 + os.length = i + (os.length + 1) := by omega
    match o with
    | .ok w =>
      have hw : p w = false := h (.ok w) (List.mem_cons_self _ _)
      rw [List.cons_append, orderScan_cons_ok, hw, if_neg Bool.false_ne_true, hrec,
        List.length_cons, harith]
    | .error e =>
      rw [List.cons_append, orderScan_cons_error, hrec, List.length_cons, harith]

/-- Registry-level OrderWith scan with no matching entry returns nothing. -/
theorem orderWithRun_no_match {α ρ : Type} (cond : ρ → Bool) (a : α)
    (l : List (String × Task α ρ)) (h : ∀ nt ∈ l, isMatch cond (nt.2.run a) = false) :
    TaskGroup.orderWithRun cond a l = none := by
  induction l with
  | nil => rfl
  | cons nt rest ih =>
    obtain ⟨name, t⟩ := nt
    have hrec := ih (fun nt2 ho => h nt2 (List.mem_cons_of_mem _ ho))
    have hhd := h (name, t) (List.mem_cons_self _ _)
    cases hr : t.run a with
    | ok v =>
      rw [hr] at hhd
      simp only [isMatch] at hhd
      simp [TaskGroup.orderWithRun, hr, hhd, hrec]
    | error e => simp [TaskGroup.orderWithRun, hr, hrec]

/-- Registry-level OrderWith scan returns the first successful entry whose
value satisfies the condition, with its registered name. -/
theorem orderWithRun_first_match {α ρ : Type} (cond : ρ → Bool) (a : α)
    (l2 : List (String × Task α ρ)) (name : String) (t : Task α ρ) (v : ρ)
    (ht : t.run a = Except.ok v) (hv : cond v = true) :
    ∀ (l1 : List (String × Task α ρ)), (∀ nt ∈ l1, isMatch cond (nt.2.run a) = false) →
    TaskGroup.orderWithRun cond a (l1 ++ (name, t) :: l2) = some (name, v) := by
  intro l1
  induction l1 with
  | nil => intro _; simp [TaskGroup.orderWithRun, ht, hv]
  | cons nt rest ih =>
    intro h
    obtain ⟨name2, t2⟩ := nt
    have hrec := ih (fun nt2 ho => h nt2 (List.mem_cons_of_mem _ ho))
    have hhd := h (name2, t2) (List.mem_cons_self _ _)
    cases hr : t2.run a with
    | ok w =>
      rw [hr] at hhd
      simp only [isMatch] at hhd
      simp [TaskGroup.orderWithRun, hr, hhd, hrec]
    | error e => simp [TaskGroup.orderWithRun, hr, hrec]

/-- The single pass of the Any race over polls with no settled-successful entry
ends with the stored "all failed" exception. -/
theorem anyScan_all_failed {ρ : Type} (polls : List (aux.Poll ρ))
    (h : ∀ q ∈ polls, pollSucceeded q = false) :
    ∀ i, aux.anyScan i polls = Except.error aux.allFailedMsg := by
  induction polls with
  | nil => intro i; rfl
  | cons q qs ih =>
    intro i
    have hrec := ih (fun q2 hq => h q2 (List.mem_cons_of_mem _ hq)) (i + 1)
    match q with
    | aux.Poll.pending => exact hrec
    | aux.Poll.settled (.ok v) =>
      exact absurd (h _ (List.mem_cons_self _ _)) (by simp [pollSucceeded])
    | aux.Poll.settled (.error e) => exact hrec

/-- A feasible poll schedule for futures that all fail never observes a
settled-successful entry. -/
theorem pollsFor_all_failed {ρ : Type} (outs : List (Except Err ρ))
    (polls : List (aux.Poll ρ)) (hp : aux.PollsFor outs polls)
    (h : ∀ o ∈ outs, ∃ e, o = Except.error e) :
    ∀ q ∈ polls, pollSucceeded q = false := by
  induction hp with
  | nil => intro q hq; simp at hq
  | @cons o q2 outs2 polls2 hrel hrest ih =>
    intro q hq
    rcases List.mem_cons.mp hq with hq1 | hq2
    · subst hq1
      cases hrel with
      | pending => rfl
      | settled =>
        obtain ⟨e, he⟩ := h o (List.mem_cons_self _ _)
        rw [he]; rfl
    · exact ih (fun o2 ho => h o2 (List.mem_cons_of_mem _ ho)) q hq2

/-- One step of the minimum pass keeps either the incumbent or the challenger. -/
theorem minStep_cases {β : Type} (better : β → β → Bool) (b v : β) :
    minStep better b v = v ∨ minStep better b v = b := by
  unfold minStep; split <;> simp

/-- The minimum pass returns an element of the scanned list. -/
theorem minFold_mem {β : Type} (better : β → β → Bool) :
    ∀ (xs : List β) (b : β), xs.foldl (minStep better) b ∈ b :: xs := by
  intro xs
  induction xs with
  | nil => intro b; simp
  | cons v xs ih =>
    intro b
    have h := ih (minStep better b v)
    rcases List.mem_cons.mp h with h1 | h2
    · rcases minStep_cases better b v with hs | hs <;>
        · rw [List.foldl_cons, h1, hs]; simp
    · rw [List.foldl_cons]
      exact List.mem_cons_of_mem _ (List.mem_cons_of_mem _ h2)

/-- The minimum pass result is connected to the start element by the strict
comparator (it either is the start element or beats it), given transitivity. -/
theorem minFold_chain {β : Type} (better : β → β → Bool)
    (htrans : ∀ x y z, better x y = true → better y z = true → better x z = true) :
    ∀ (xs : List β) (b : β),
      xs.foldl (minStep better) b = b ∨ better (xs.foldl (minStep better) b) b = true := by
  intro xs
  induction xs with
  | nil => intro b; exact Or.inl rfl
  | cons v xs ih =>
    intro b
    rw [List.foldl_cons]
    by_cases hb : better v b = true
    · have hstep : minStep better b v = v := by simp [minStep, hb]
      rw [hstep]
      rcases ih v with h1 | h2
      · right; rw [h1]; exact hb
      · right; exact htrans _ v b h2 hb
    · have hstep : minStep better b v = b := by simp [minStep, hb]
      rw [hstep]
      exact ih b

/-- No scanned element strictly beats the result of the minimum pass, provided
the comparator is irreflexive and transitive. -/
theorem minFold_not_beaten {β : Type} (better : β → β → Bool)
    (hirr : ∀ x, better x x = false)
    (htrans : ∀ x y z, better x y = true → better y z = true → better x z = true) :
    ∀ (xs : List β) (b : β) (y : β), y ∈ b :: xs →
      better y (xs.foldl (minStep better) b) = false := by
  intro xs
  induction xs with
  | nil =>
    intro b y hy
    have hyb : y = b := by simpa using hy
    rw [hyb]
    exact hirr b
  | cons v xs ih =>
    intro b y hy
    rw [List.foldl_cons]
    by_cases hb : better v b = true
    · have hstep : minStep better b v = v := by simp [minStep, hb]
      rw [hstep]
      rcases List.mem_cons.mp hy with hyb | hy2
      · -- y = b, the replaced incumbent
        rw [hyb]
        cases hyr : better b (xs.foldl (minStep better) v) with
        | false => rfl
        | true =>
          exfalso
          have hbv : better b v = true := by
            rcases minFold_chain better htrans xs v with h1 | h2
            · rw [h1] at hyr; exact hyr
            · exact htrans _ _ _ hyr h2
          have hcontra := htrans _ _ _ hbv hb
          rw [hirr b] at hcontra
          exact Bool.false_ne_true hcontra
      · exact ih v y hy2
    · have hstep : minStep better b v = b := by simp [minStep, hb]
      rw [hstep]
      rcases List.mem_cons.mp hy with hyb | hy2
      · rw [hyb]
        exact ih b b (List.mem_cons_self _ _)
      · rcases List.mem_cons.mp hy2 with hyv | hy3
        · -- y = v, the rejected challenger
          rw [hyv]
          cases hyr : better v (xs.foldl (minStep better) b) with
          | false => rfl
          | true =>
            exfalso
            have hvb : better v b = true := by
              rcases minFold_chain better htrans xs b with h1 | h2
              · rw [h1] at hyr; exact hyr
              · exact htrans _ _ _ hyr h2
            exact hb hvb
        · exact ih b y (List.mem_cons_of_mem _ hy3)

/-- Under a comparator that never strictly prefers anything (all ties), the
minimum pass keeps the first element. -/
theorem minFold_ties {β : Type} (better : β → β → Bool)
    (hall : ∀ x y, better x y = false) :
    ∀ (xs : List β) (b : β), xs.foldl (minStep better) b = b := by
  intro xs
  induction xs with
  | nil => intro b; rfl
  | cons v xs ih =>
    intro b
    rw [List.foldl_cons, show minStep better b v = b from by simp [minStep, hall v b]]
    exact ih b

/-- The lazy launch trace of `execute_order_with` is a contiguous run of
indices starting at the scan's start index, never longer than the remaining
registry suffix. -/
theorem orderWithRunsFrom_range {α ρ : Type} (cond : ρ → Bool) (a : α) :
    ∀ (l : List (String × Task α ρ)) (i : Nat),
      ∃ k, TaskGroup.orderWithRunsFrom cond a i l = List.range' i k ∧ k ≤ l.length := by
  intro l
  induction l with
  | nil => exact fun i => ⟨0, rfl, Nat.zero_le _⟩
  | cons nt rest ih =>
    intro i
    obtain ⟨name, t⟩ := nt
    cases hr : t.run a with
    | ok v =>
      cases hc : cond v with
      | true =>
        refine ⟨1, ?_, by simp⟩
        simp [TaskGroup.orderWithRunsFrom, hr, hc, List.range']
      | false =>
        obtain ⟨k, hk, hkle⟩ := ih (i + 1)
        refine ⟨k + 1, ?_, by simp; omega⟩
        rw [List.range'_succ]
        simp [TaskGroup.orderWithRunsFrom, hr, hc, hk]
    | error e =>
      obtain ⟨k, hk, hkle⟩ := ih (i + 1)
      refine ⟨k + 1, ?_, by simp; omega⟩
      rw [List.range'_succ]
      simp [TaskGroup.orderWithRunsFrom, hr, hk]

/- ------------------------------------------------------------------ -/
/- Claim theorems                                                      -/
/- ------------------------------------------------------------------ -/

/-- C9: for every task `t`, continuation `f` and argument tuple `a`, invoking
`t.then(f)` runs the original callable, blocks for its result and applies `f`:
when the inner callable succeeds with `r`, the composed task's `get` yields
`f r`; when the inner callable fails, the failure propagates to the caller of
the composed `get` exactly as through a direct `get`. -/
theorem C9_then_composition :
    ∀ (α ρ σ : Type) (t : Task α ρ) (f : ρ → Except Err σ) (a : α),
      (∀ r, t.get a = Except.ok r → (t.andThen f).get a = f r) ∧
      (∀ e, t.get a = Except.error e → (t.andThen f).get a = Except.error e) := by
  intro α ρ σ t f a
  constructor
  · intro r h
    show (match t.fn a with | .error e => .error e | .ok r => f r) = f r
    rw [show t.fn a = Except.ok r from h]
  · intro e h
    show (match t.fn a with | .error e => .error e | .ok r => f r) = Except.error e
    rw [show t.fn a = Except.error e from h]

/-- C9 witness: concrete evaluations through `C9_then_composition`, one for a
succeeding inner callable and one for a failing one. -/
theorem C9_witness :
    (tC9.andThen (fun v => Except.ok (v + 1))).get () = Except.ok 6 ∧
    (tC9f.andThen (fun v => Except.ok (v + 1))).get () = Except.error "inner" := by
  constructor
  · exact (C9_then_composition Unit Nat Nat tC9 (fun v => Except.ok (v + 1)) ()).1 5 rfl
  · exact (C9_then_composition Unit Nat Nat tC9f (fun v => Except.ok (v + 1)) ()).2 "inner" rfl

/-- C10: no `execute_*` call modifies the registry's task list (each returns
the registry unchanged: same entries, count and order), and `add_function` is
the only mutation, appending exactly one entry at the end while preserving the
existing prefix. -/
theorem C10_registry_frame :
    ∀ (α ρ : Type) (g : TaskGroup α ρ) (name : String) (f : α → Except Err ρ)
      (a : α) (w : Nat) (cond : ρ → Bool) (comp : ρ → ρ → Bool) (sched : Nat → Bool),
      (g.execute_any a w).1 = g ∧
      (g.execute_any_with cond a).1 = g ∧
      (g.execute_all a sched).1 = g ∧
      (g.execute_best comp a sched).1 = g ∧
      (g.execute_order_with cond a).1 = g ∧
      (g.add_function name f).tasks_ = g.tasks_ ++ [(name, ⟨f⟩)] ∧
      (g.add_function name f).tasks_.length = g.tasks_.length + 1 ∧
      (g.add_function name f).tasks_.take g.tasks_.length = g.tasks_ := by
  intro α ρ g name f a w cond comp sched
  refine ⟨rfl, rfl, rfl, rfl, ?_, rfl, by simp [TaskGroup.add_function], ?_⟩
  · cases h : g.tasks_.isEmpty <;> simp [TaskGroup.execute_order_with, h]
  · simp [TaskGroup.add_function, List.take_left]

/-- C7 counterexample: the free `Best` combinator, evaluated when `All`
collects an empty list (empty candidate range), does not report a "no result"
outcome: it raises the error "No results to compare" to the caller. -/
theorem C7_counterexample_free_best_raises :
    (Best (fun (_ _ : Nat) => true) ([] : List (Task Unit Nat)) ()).get () =
      Except.error noResultsMsg := rfl

/-- C7 amended: when the underlying All collects an empty list,
`TaskGroup::execute_best` reports "no result" (`nullopt`), but the free `Best`
combinator instead raises the error "No results to compare" (its return type
cannot express absence). -/
theorem C7_best_empty_outcome :
    (∀ (α ρ : Type) (g : TaskGroup α ρ) (comp : ρ → ρ → Bool) (a : α) (sched : Nat → Bool),
        (g.execute_all a sched).2 = [] → (g.execute_best comp a sched).2 = none) ∧
    (∀ (α ρ : Type) (better : ρ → ρ → Bool) (tasks : List (Task α ρ)) (a : α),
        collectAll (aux.transform tasks a) = Except.ok [] →
        (Best better tasks a).get () = Except.error noResultsMsg) := by
  constructor
  · intro α ρ g comp a sched h
    show TaskGroup.execute_best_result g comp a sched = none
    unfold TaskGroup.execute_best_result
    rw [h]
  · intro α ρ better tasks a h
    show (Best better tasks a).fn () = Except.error noResultsMsg
    simp only [Best, All, Task.andThen]
    rw [h]

/-- C7 witness: `C7_best_empty_outcome` applied to the empty registry and the
empty candidate range. -/
theorem C7_witness :
    (gEmpty.execute_best (fun _ _ => true) () (fun _ => true)).2 = none ∧
    (Best (fun (_ _ : Nat) => true) ([] : List (Task Unit Nat)) ()).get () =
      Except.error noResultsMsg := by
  constructor
  · exact C7_best_empty_outcome.1 Unit Nat gEmpty (fun _ _ => true) () (fun _ => true) rfl
  · exact C7_best_empty_outcome.2 Unit Nat (fun _ _ => true) [] () rfl

/-- C3 counterexample: a candidate failure does cross the free `All` policy
boundary as a raised error: with one succeeding and one failing candidate, the
evaluation of `All` raises the candidate's error instead of omitting it. -/
theorem C3_counterexample_all_propagates :
    (All [okTask1, badTask] ()).get () = Except.error "bad task" := rfl

/-- C3 amended: failures are locally absorbed and the candidate excluded in
AnyWith (the settled-failed future is caught and skipped), in OrderWith (the
failed index is skipped), and in `execute_all` (the failed entry is dropped
whether or not it had settled); but the free `All` combinator has no handler,
so any failed candidate makes the whole evaluation raise that candidate's
error. -/
theorem C3_failure_absorption :
    (∀ (ρ : Type) (p : ρ → Bool) (i : Nat) (e : Err) (qs : List (aux.Poll ρ)),
        aux.anyWithScan p i (aux.Poll.settled (Except.error e) :: qs) =
          aux.anyWithScan p (i + 1) qs) ∧
    (∀ (ρ : Type) (p : ρ → Bool) (i : Nat) (e : Err) (os : List (Except Err ρ)),
        aux.orderScan p i (Except.error e :: os) = aux.orderScan p (i + 1) os) ∧
    (∀ (α ρ : Type) (a : α) (sched : Nat → Bool) (i : Nat) (name : String)
        (t : Task α ρ) (rest : List (String × Task α ρ)) (e : Err),
        t.run a = Except.error e →
        TaskGroup.collectReady a sched i ((name, t) :: rest) =
          TaskGroup.collectReady a sched (i + 1) rest) ∧
    (∀ (ρ : Type) (outs : List (Except Err ρ)),
        (∃ o ∈ outs, ∃ e, o = Except.error e) →
        ∃ e, collectAll outs = Except.error e) := by
  refine ⟨fun ρ p i e qs => rfl, fun ρ p i e os => rfl, ?_, fun ρ outs h => collectAll_error_of_mem outs h⟩
  intro α ρ a sched i name t rest e ht
  cases h : sched i <;> simp [TaskGroup.collectReady, h, ht]

/-- C3 witness: `C3_failure_absorption` applied at concrete inputs — a failed
poll is skipped by the AnyWith scan, a failed outcome is skipped by the
OrderWith scan, a failed entry is dropped by `execute_all`'s collection pass,
and `collectAll` over `[ok 1, error]` raises. -/
theorem C3_witness :
    aux.anyWithScan (fun v => decide (v > (0 : Nat))) 0 [aux.Poll.settled (Except.error "x")] =
      aux.anyWithScan (fun v => decide (v > (0 : Nat))) 1 [] ∧
    aux.orderScan (fun v => decide (v > (0 : Nat))) 0 [Except.error "x"] =
      aux.orderScan (fun v => decide (v > (0 : Nat))) 1 [] ∧
    TaskGroup.collectReady () (fun _ => true) 0 [("bad", badTask)] =
      TaskGroup.collectReady () (fun _ => true) 1 [] ∧
    ∃ e, collectAll [Except.ok (1 : Nat), Except.error "bad task"] = Except.error e := by
  refine ⟨C3_failure_absorption.1 Nat _ 0 "x" [], C3_failure_absorption.2.1 Nat _ 0 "x" [], ?_, ?_⟩
  · exact C3_failure_absorption.2.2.1 Unit Nat () (fun _ => true) 0 "bad" badTask [] "bad task" rfl
  · exact C3_failure_absorption.2.2.2 Nat _ ⟨Except.error "bad task", by simp, "bad task", rfl⟩

/-- C1 (code-bug evidence): with no deadline, `TaskGroup::execute_all` does a
single non-blocking `wait_for(0)` pass instead of blocking, so a registered
task that is still pending at its check (here: `sched 0 = false`, as for any
task that sleeps briefly) is silently dropped even though it never fails — the
call returns an empty list instead of N values.  The free `All` combinator, by
contrast, blocks on every future and does return all N values in launch
order. -/
theorem C1_execute_all_drops_pending :
    (gC1.execute_all () (fun _ => false)).2 = [] ∧
    gC1.tasks_.length = 1 ∧
    slowTask.run () = Except.ok 42 ∧
    (All [slowTask] ()).get () = Except.ok [42] := ⟨rfl, rfl, rfl, rfl⟩

/-- C2 counterexample: the "all failed" case is not reported as an absent
result.  `aux::getAnyResultPair` fulfills the promise with the exception
"All tasks failed or no task returned a valid result", which the caller's
blocking `resfut.get()` rethrows; and `TaskGroup::execute_any` over a registry
whose only task fails reports that settled (failed) future as the winner and
rethrows its error from `futures[w].get()`. -/
theorem C2_counterexample_all_failed_raises :
    aux.getAnyResultPair ([aux.Poll.settled (Except.error "boom")] : List (aux.Poll Nat)) =
      Except.error aux.allFailedMsg ∧
    (gC2.execute_any () 0).2 = Except.error "bad task" := ⟨rfl, rfl⟩

/-- C2 amended: when every candidate fails, the Any policy raises an error to
the caller rather than returning a no-result value: `aux::getAnyResultPair`
ends its single pass (in which a failed or still-pending future can never win)
by storing the "all failed" runtime error, rethrown by the caller's `get`; and
`TaskGroup::execute_any`'s readiness race reports some settled index, whose
failed future's `get()` rethrows that task's own error. -/
theorem C2_any_all_failed :
    (∀ (ρ : Type) (outs : List (Except Err ρ)) (polls : List (aux.Poll ρ)),
        aux.PollsFor outs polls →
        (∀ o ∈ outs, ∃ e, o = Except.error e) →
        aux.getAnyResultPair polls = Except.error aux.allFailedMsg) ∧
    (∀ (α ρ : Type) (g : TaskGroup α ρ) (a : α) (w : Nat),
        w < g.tasks_.length →
        (∀ nt ∈ g.tasks_, ∃ e, nt.2.run a = Except.error e) →
        ∃ e, (g.execute_any a w).2 = Except.error e) := by
  constructor
  · intro ρ outs polls hp h
    exact anyScan_all_failed polls (pollsFor_all_failed outs polls hp h) 0
  · intro α ρ g a w hw hall
    have hne : g.tasks_ ≠ [] := by
      intro hnil
      rw [hnil] at hw
      simp at hw
    obtain ⟨nt, hget⟩ : ∃ nt, g.tasks_.get? w = some nt :=
      List.get?_eq_get hw ▸ ⟨_, rfl⟩
    obtain ⟨name, t⟩ := nt
    obtain ⟨e, he⟩ := hall (name, t) (List.get?_mem hget)
    have hfut : (TaskGroup.futuresOf g a).get? w = some (Except.error e) := by
      rw [TaskGroup.futuresOf, List.get?_map, hget]
      simp [he]
    refine ⟨e, ?_⟩
    show TaskGroup.execute_any_result g a w = Except.error e
    unfold TaskGroup.execute_any_result
    rw [if_neg (by simp [List.isEmpty_iff, hne]), hget, hfut]

/-- C2 witness: `C2_any_all_failed` applied to a two-candidate poll schedule
(one settled failed, one still pending) and to the concrete all-failing
registry. -/
theorem C2_witness :
    aux.getAnyResultPair
      ([aux.Poll.settled (Except.error "boom"), aux.Poll.pending] : List (aux.Poll Nat)) =
      Except.error aux.allFailedMsg ∧
    ∃ e, (gC2.execute_any () 0).2 = Except.error e := by
  constructor
  · refine C2_any_all_failed.1 Nat [Except.error "boom", Except.error "late"]
      [aux.Poll.settled (Except.error "boom"), aux.Poll.pending] ?_ ?_
    · exact List.Forall₂.cons (aux.PollOf.settled _)
        (List.Forall₂.cons (aux.PollOf.pending _) List.Forall₂.nil)
    · intro o ho
      rcases List.mem_cons.mp ho with h1 | h2
      · exact ⟨"boom", h1⟩
      · exact ⟨"late", by simpa using h2⟩
  · refine C2_any_all_failed.2 Unit Nat gC2 () 0 (by simp [gC2]) ?_
    intro nt hnt
    refine ⟨"bad task", ?_⟩
    have : nt = ("bad", badTask) := by simpa [gC2] using hnt
    rw [this]
    rfl

/-- C4: with no deadline, OrderWith returns the lowest index whose successful
value satisfies the predicate — the scan blocks on each handle in launch order,
so wall-clock settlement order is irrelevant — and on exhaustion reports the
no-match sentinel: index = candidate count with no value for the index-based
evaluator, and name-translated `some`/`none` for the registry adapter. -/
theorem C4_orderwith_lowest_index :
    (∀ (ρ : Type) (p : ρ → Bool) (l1 l2 : List (Except Err ρ)) (v : ρ),
        p v = true → (∀ o ∈ l1, isMatch p o = false) →
        aux.getOrderWithResultPair p (l1 ++ Except.ok v :: l2) = (l1.length, some v)) ∧
    (∀ (ρ : Type) (p : ρ → Bool) (outs : List (Except Err ρ)),
        (∀ o ∈ outs, isMatch p o = false) →
        aux.getOrderWithResultPair p outs = (outs.length, none)) ∧
    (∀ (α ρ : Type) (cond : ρ → Bool) (a : α) (g : TaskGroup α ρ)
        (l1 l2 : List (String × Task α ρ)) (name : String) (t : Task α ρ) (v : ρ),
        g.tasks_ = l1 ++ (name, t) :: l2 →
        t.run a = Except.ok v → cond v = true →
        (∀ nt ∈ l1, isMatch cond (nt.2.run a) = false) →
        (g.execute_order_with cond a).2 = some (name, v)) ∧
    (∀ (α ρ : Type) (cond : ρ → Bool) (a : α) (g : TaskGroup α ρ),
        (∀ nt ∈ g.tasks_, isMatch cond (nt.2.run a) = false) →
        (g.execute_order_with cond a).2 = none) := by
  refine ⟨?_, ?_, ?_, ?_⟩
  · intro ρ p l1 l2 v hv h
    have := orderScan_first_match p l2 v hv l1 h 0
    rw [Nat.zero_add] at this
    exact this
  · intro ρ p outs h
    have := orderScan_no_match p outs h 0
    rw [Nat.zero_add] at this
    exact this
  · intro α ρ cond a g l1 l2 name t v hg ht hv h
    have hne : g.tasks_.isEmpty = false := by
      rw [hg]
      rcases l1 with _ | ⟨nt, rest⟩ <;> rfl
    rw [TaskGroup.execute_order_with, if_neg (by rw [hne]; exact Bool.false_ne_true)]
    show TaskGroup.orderWithRun cond a g.tasks_ = some (name, v)
    rw [hg]
    exact orderWithRun_first_match cond a l2 name t v ht hv l1 h
  · intro α ρ cond a g h
    cases hne : g.tasks_.isEmpty with
    | true => rw [TaskGroup.execute_order_with, if_pos hne]
    | false =>
      rw [TaskGroup.execute_order_with, if_neg (by rw [hne]; exact Bool.false_ne_true)]
      exact orderWithRun_no_match cond a g.tasks_ h

/-- C4 witness: `C4_orderwith_lowest_index` at concrete inputs — index 2 is the
first match after a failed candidate and a non-matching one; an all-non-match
list yields the sentinel (length, none); the registry adapter returns the name
of the lowest-index match, and none on exhaustion. -/
theorem C4_witness :
    aux.getOrderWithResultPair (fun v => decide (v ≥ 3))
        ([Except.error "e", Except.ok 1] ++ Except.ok 3 :: [Except.ok 9]) = (2, some 3) ∧
    aux.getOrderWithResultPair (fun v => decide (v ≥ (3 : Nat)))
        [Except.ok 1, Except.error "e"] = (2, none) ∧
    (gC4.execute_order_with (fun v => decide (v ≥ 3)) ()).2 = some ("b", 3) ∧
    (gC8.execute_order_with (fun v => decide (v > 100)) ()).2 = none := by
  refine ⟨?_, ?_, ?_, ?_⟩
  · exact C4_orderwith_lowest_index.1 Nat _ [Except.error "e", Except.ok 1]
      [Except.ok 9] 3 rfl (by decide)
  · exact C4_orderwith_lowest_index.2.1 Nat _ [Except.ok 1, Except.error "e"] (by decide)
  · exact C4_orderwith_lowest_index.2.2.1 Unit Nat _ () gC4
      [("a", ⟨fun _ => .ok 1⟩)] [] "b" ⟨fun _ => .ok 3⟩ 3 rfl rfl rfl (by decide)
  · refine C4_orderwith_lowest_index.2.2.2 Unit Nat _ () gC8 ?_
    intro nt hnt
    rcases List.mem_cons.mp hnt with h1 | h2
    · rw [h1]; rfl
    · have : nt = ("func22", ⟨fun _ => Except.ok 20⟩) := by simpa [gC8] using h2
      rw [this]; rfl

/-- C5 counterexample: not every policy starts all N activities before draining
— `TaskGroup::execute_order_with` launches lazily: with two registered
candidates whose first entry matches the predicate, only entry 0 is ever
started (launch trace `[0]`), so the second activity is never launched at
all. -/
theorem C5_counterexample_orderwith_lazy :
    gC5.execute_order_with_runs (fun v => decide (v > 0)) () = [0] ∧
    gC5.tasks_.length = 2 := ⟨rfl, rfl⟩

/-- C5 amended: the launcher `aux::transform` produces exactly N handles with
handle i corresponding to unit i (it is the index-preserving map of `run` over
the units), and the prelaunching registry adapters build exactly that futures
vector; but `TaskGroup::execute_order_with` does not prelaunch: its launch
trace is a contiguous initial segment `[0, …, k-1]` of the indices (one launch
per scan step, stopping at a match), of length at most N. -/
theorem C5_launcher_handles :
    (∀ (α ρ : Type) (tasks : List (Task α ρ)) (a : α),
        (aux.transform tasks a).length = tasks.length) ∧
    (∀ (α ρ : Type) (tasks : List (Task α ρ)) (a : α) (i : Nat),
        (aux.transform tasks a).get? i = (tasks.get? i).map (fun t => t.run a)) ∧
    (∀ (α ρ : Type) (g : TaskGroup α ρ) (a : α),
        TaskGroup.futuresOf g a = aux.transform (g.tasks_.map Prod.snd) a) ∧
    (∀ (α ρ : Type) (g : TaskGroup α ρ) (cond : ρ → Bool) (a : α),
        g.execute_order_with_runs cond a =
          List.range (g.execute_order_with_runs cond a).length ∧
        (g.execute_order_with_runs cond a).length ≤ g.tasks_.length) := by
  refine ⟨?_, ?_, ?_, ?_⟩
  · intro α ρ tasks a
    simp [aux.transform]
  · intro α ρ tasks a i
    simp [aux.transform, List.get?_map]
  · intro α ρ g a
    simp [TaskGroup.futuresOf, aux.transform, List.map_map]
  · intro α ρ g cond a
    obtain ⟨k, hk, hkle⟩ := orderWithRunsFrom_range cond a g.tasks_ 0
    have hlen : (g.execute_order_with_runs cond a).length = k := by
      rw [TaskGroup.execute_order_with_runs, hk, List.length_range']
    constructor
    · rw [hlen, TaskGroup.execute_order_with_runs, hk, List.range_eq_range']
    · rw [hlen]; exact hkle

/-- C6 counterexample: with an arbitrary comparator (here the constant-true
one) the value returned by Best does not satisfy "no other collected value is
preferred over it": over collected values [0, 1] the pass returns 1, yet the
comparator prefers 0 over 1. -/
theorem C6_counterexample_comparator :
    (Best (fun _ _ => true) [tv0, tv1] ()).get () = Except.ok 1 ∧
    ¬ (∀ y ∈ [(0 : Nat), 1], (fun (_ _ : Nat) => true) y 1 = false) := by
  refine ⟨rfl, ?_⟩
  intro h
  have := h 0 (by simp)
  simp at this

/-- C6 amended: provided the comparator is a strict ordering — irreflexive and
transitive, the contract `std::min_element` requires — the value returned by
Best (free combinator and registry adapter alike) is one of the collected
values and no other collected value is strictly preferred over it, via the
single linear left-to-right pass; and when the comparator never strictly
prefers anything (all ties), the pass keeps the first collected element. -/
theorem C6_best_minimal :
    (∀ (ρ : Type) (better : ρ → ρ → Bool),
      (∀ x, better x x = false) →
      (∀ x y z, better x y = true → better y z = true → better x z = true) →
      (∀ (α : Type) (tasks : List (Task α ρ)) (a : α) (v : ρ) (vs : List ρ),
          collectAll (aux.transform tasks a) = Except.ok (v :: vs) →
          (Best better tasks a).get () = Except.ok (minElement better v vs) ∧
          minElement better v vs ∈ v :: vs ∧
          ∀ y ∈ v :: vs, better y (minElement better v vs) = false) ∧
      (∀ (α : Type) (g : TaskGroup α ρ) (a : α) (sched : Nat → Bool)
          (r : String × ρ) (rs : List (String × ρ)),
          (g.execute_all a sched).2 = r :: rs →
          ∃ b, (g.execute_best better a sched).2 = some b ∧
            b ∈ r :: rs ∧
            ∀ y ∈ r :: rs, better y.2 b.2 = false)) ∧
    (∀ (ρ : Type) (better : ρ → ρ → Bool) (x : ρ) (xs : List ρ),
        (∀ y z, better y z = false) → minElement better x xs = x) := by
  constructor
  · intro ρ better hirr htrans
    constructor
    · intro α tasks a v vs h
      refine ⟨?_, minFold_mem better vs v, minFold_not_beaten better hirr htrans vs v⟩
      show (Best better tasks a).fn () = Except.ok (minElement better v vs)
      simp only [Best, All, Task.andThen]
      rw [h]
    · intro α g a sched r rs h
      have hlift_irr : ∀ x : String × ρ, (fun x y : String × ρ => better x.2 y.2) x x = false :=
        fun x => hirr x.2
      have hlift_trans : ∀ x y z : String × ρ,
          (fun x y : String × ρ => better x.2 y.2) x y = true →
          (fun x y : String × ρ => better x.2 y.2) y z = true →
          (fun x y : String × ρ => better x.2 y.2) x z = true :=
        fun x y z h1 h2 => htrans x.2 y.2 z.2 h1 h2
      refine ⟨minElement (fun x y => better x.2 y.2) r rs, ?_,
        minFold_mem _ rs r,
        fun y hy => minFold_not_beaten _ hlift_irr hlift_trans rs r y hy⟩
      show TaskGroup.execute_best_result g better a sched = _
      unfold TaskGroup.execute_best_result
      rw [h]
  · intro ρ better x xs hall
    exact minFold_ties better hall xs x

/-- C6 witness: `C6_best_minimal` with the strict order `<` on ℕ over the
collected values [0, 1] (free Best evaluates to the minimum 0, which nothing
beats), with the registry adapter over a concrete collected list, and the
all-ties comparator keeping the first element. -/
theorem C6_witness :
    (Best (fun a b => decide (a < b)) [tv0, tv1] ()).get () =
      Except.ok (minElement (fun a b => decide (a < b)) 0 [1]) ∧
    (∀ y ∈ [(0 : Nat), 1], decide (y < minElement (fun a b => decide (a < b)) 0 [1]) = false) ∧
    (∃ b, (gC4.execute_best (fun a b => decide (a < b)) () (fun _ => true)).2 = some b ∧
      b ∈ [("a", 1), ("b", 3)] ∧
      ∀ y ∈ [("a", (1 : Nat)), ("b", 3)], decide (y.2 < b.2) = false) ∧
    minElement (fun _ _ => false) (5 : Nat) [7] = 5 := by
  have hirr : ∀ x : Nat, decide (x < x) = false := fun x => by simp
  have htrans : ∀ x y z : Nat, decide (x < y) = true → decide (y < z) = true →
      decide (x < z) = true := fun x y z h1 h2 => by
    simp only [decide_eq_true_eq] at h1 h2 ⊢
    omega
  obtain ⟨ha, hb⟩ := C6_best_minimal.1 Nat (fun a b => decide (a < b)) hirr htrans
  have h1 := ha Unit [tv0, tv1] () 0 [1] rfl
  have h2 := hb Unit gC4 () (fun _ => true) ("a", 1) [("b", 3)] rfl
  exact ⟨h1.1, h1.2.2, h2, C6_best_minimal.2 Nat (fun _ _ => false) 5 [7] (fun y z => rfl)⟩

/-- C8 (code-bug evidence): on the repo's own "AnyWith with no match" inputs
(values 10 and 20, predicate "greater than 100") with no timeout,
`TaskGroup::execute_any_with` never returns — its monitor thread exhausts the
futures without setting `completed`, so the caller's `cv.wait` blocks forever
(modelled as the outer `none`) — whereas `aux::getAnyWithResultPair` does
return the no-match sentinel `(-1, no value)`; and whenever the AnyWith race
does return a value, that value satisfies the predicate (third conjunct at a
matching input). -/
theorem C8_any_with_no_match :
    (gC8.execute_any_with (fun v => decide (v > 100)) ()).2 = none ∧
    aux.getAnyWithResultPair (fun v => decide (v > 100))
      [aux.Poll.settled (Except.ok (10 : Nat)), aux.Poll.settled (Except.ok 20)] =
      (-1, none) ∧
    aux.getAnyWithResultPair (fun v => decide (v > 15))
      [aux.Poll.settled (Except.ok (10 : Nat)), aux.Poll.settled (Except.ok 20)] =
      (1, some 20) := ⟨rfl, rfl, rfl⟩

end Hypara
